import Mathlib

/-!
Verification of `fatiando/potential/sphere.py`: forward modeling of the
magnetic total-field anomaly (`tf`) and vertical gravity component (`gz`)
of homogeneous spheres, together with the direction-cosine helper
(`_dircos`).

Observation arrays are modelled as lists of reals (one-dimensional numpy
arrays); a shape is the list's length.  A source list entry may be the
null tombstone (`Option.none`).  A sphere's property lookup is an
association list from property names to values.  A call that raises
`ValueError` is modelled as `Except.error`.
-/

namespace Pelotas

/-- Modelled from the spec: `fatiando.constants` is not among the sources;
the spec treats the gravitational constant, the SI-to-milligal factor, the
tesla-to-nanotesla factor and the CGS/SI magnetic-moment bridging factor as
fixed external values in standard geophysical convention. -/
noncomputable def G : ℝ := 6.673e-11

/-- Modelled from the spec: SI (m/s²) to milligal conversion factor. -/
noncomputable def SI2MGAL : ℝ := 1e5

/-- Modelled from the spec: tesla to nanotesla conversion factor. -/
noncomputable def T2NT : ℝ := 1e9

/-- Modelled from the spec: the CGS/SI magnetic-moment bridging factor
(μ₀ / 4π in SI). -/
noncomputable def CM : ℝ := 1e-7

/-- A spherical source: center coordinates, radius, and the property
lookup (`sphere.props` in the source, a dict with optional keys such as
"magnetization", "density", "inclination", "declination"). -/
structure Sphere where
  x : ℝ
  y : ℝ
  z : ℝ
  radius : ℝ
  props : List (String × ℝ)

/-- Embeds `_dircos(inc, dec)`: the three coordinates of the unit vector
given its inclination and declination in degrees. -/
noncomputable def dircos (inc decl : ℝ) : ℝ × ℝ × ℝ :=
  let d2r := Real.pi / 180
  (Real.cos (d2r * inc) * Real.cos (d2r * decl),
   Real.cos (d2r * inc) * Real.sin (d2r * decl),
   Real.sin (d2r * inc))

/-- The magnetization direction chosen for one sphere inside `tf`: the
sphere's own `_dircos(inclination, declination)` when both properties are
present in its lookup, the ambient `_dircos(inc, dec)` otherwise. -/
noncomputable def sphereDir (s : Sphere) (inc decl : ℝ) : ℝ × ℝ × ℝ :=
  if (s.props.lookup "inclination").isSome && (s.props.lookup "declination").isSome then
    dircos ((s.props.lookup "inclination").getD 0) ((s.props.lookup "declination").getD 0)
  else
    dircos inc decl

/-- One sphere's contribution to `tf` at one observation point `p`
(elementwise view of the loop body of `tf`): null spheres and spheres
without "magnetization" contribute nothing; otherwise the dipole field is
projected onto the ambient direction `f`.  `bY` renders the source's `by`
(a Lean keyword). -/
noncomputable def tfContrib (f : ℝ × ℝ × ℝ) (inc decl : ℝ) (so : Option Sphere)
    (p : ℝ × ℝ × ℝ) : ℝ :=
  match so with
  | none => 0
  | some s =>
    match s.props.lookup "magnetization" with
    | none => 0
    | some mag =>
      let m := sphereDir s inc decl
      let x := p.1 - s.x
      let y := p.2.1 - s.y
      let z := p.2.2 - s.z
      let dotprod := m.1 * x + m.2.1 * y + m.2.2 * z
      let r_sqr := x ^ 2 + y ^ 2 + z ^ 2
      let r5 := r_sqr ^ (2.5 : ℝ)
      let moment := mag * 4 * Real.pi * s.radius ^ 3 / 3
      let bx := moment * (3 * dotprod * x - r_sqr * m.1) / r5
      let bY := moment * (3 * dotprod * y - r_sqr * m.2.1) / r5
      let bz := moment * (3 * dotprod * z - r_sqr * m.2.2) / r5
      f.1 * bx + f.2.1 * bY + f.2.2 * bz

/-- The accumulator of `tf` at one observation point: the loop
`tf = tf + (fx*bx + fy*by + fz*bz)` starting from `zeros_like(xp)`. -/
noncomputable def tfSum (spheres : List (Option Sphere)) (inc decl : ℝ)
    (f : ℝ × ℝ × ℝ) (p : ℝ × ℝ × ℝ) : ℝ :=
  spheres.foldl (fun acc so => acc + tfContrib f inc decl so p) 0

/-- The array returned by `tf` once the shape check has passed:
`CM*T2NT*tf` elementwise, with the ambient direction `_dircos(inc, dec)`
computed once per call. -/
noncomputable def tfArr (xp yp zp : List ℝ) (spheres : List (Option Sphere))
    (inc decl : ℝ) : List ℝ :=
  (xp.zip (yp.zip zp)).map fun p => CM * T2NT * tfSum spheres inc decl (dircos inc decl) p

/-- Embeds `tf(xp, yp, zp, spheres, inc, dec)`.  The guard renders the
Python chained comparison `xp.shape != yp.shape != zp.shape`, which means
`xp.shape != yp.shape and yp.shape != zp.shape`. -/
noncomputable def tf (xp yp zp : List ℝ) (spheres : List (Option Sphere))
    (inc decl : ℝ) : Except String (List ℝ) :=
  if xp.length ≠ yp.length ∧ yp.length ≠ zp.length then
    Except.error "Input arrays xp, yp, and zp must have same shape!"
  else
    Except.ok (tfArr xp yp zp spheres inc decl)

/-- One sphere's contribution to `gz` at one observation point
(elementwise view of the loop body of `gz`). -/
noncomputable def gzContrib (so : Option Sphere) (p : ℝ × ℝ × ℝ) : ℝ :=
  match so with
  | none => 0
  | some s =>
    match s.props.lookup "density" with
    | none => 0
    | some density =>
      let x := p.1 - s.x
      let y := p.2.1 - s.y
      let z := p.2.2 - s.z
      let r_cb := (x ^ 2 + y ^ 2 + z ^ 2) ^ (1.5 : ℝ)
      let mass := density * 4 * Real.pi * s.radius ^ 3 / 3
      mass * z / r_cb

/-- The accumulator of `gz` at one observation point. -/
noncomputable def gzSum (spheres : List (Option Sphere)) (p : ℝ × ℝ × ℝ) : ℝ :=
  spheres.foldl (fun acc so => acc + gzContrib so p) 0

/-- The array returned by `gz` once the shape check has passed:
`G*SI2MGAL*res` elementwise. -/
noncomputable def gzArr (xp yp zp : List ℝ) (spheres : List (Option Sphere)) : List ℝ :=
  (xp.zip (yp.zip zp)).map fun p => G * SI2MGAL * gzSum spheres p

/-- Embeds `gz(xp, yp, zp, spheres)`, with the same chained-comparison
shape guard as `tf`. -/
noncomputable def gz (xp yp zp : List ℝ) (spheres : List (Option Sphere)) :
    Except String (List ℝ) :=
  if xp.length ≠ yp.length ∧ yp.length ≠ zp.length then
    Except.error "Input arrays xp, yp, and zp must have same shape!"
  else
    Except.ok (gzArr xp yp zp spheres)

/-- Non-finite-tracking scalar for the degenerate-geometry analysis:
`some r` is the finite double `r`, `none` stands for an IEEE non-finite
value (∞ or NaN).  Addition propagates non-finite operands. -/
def oAdd : Option ℝ → Option ℝ → Option ℝ
  | some a, some b => some (a + b)
  | _, _ => none

/-- Multiplication on non-finite-tracking scalars. -/
def oMul : Option ℝ → Option ℝ → Option ℝ
  | some a, some b => some (a * b)
  | _, _ => none

/-- Division on non-finite-tracking scalars: IEEE division by zero yields
a non-finite value (±∞ for a nonzero numerator, NaN for 0/0). -/
noncomputable def oDiv : Option ℝ → Option ℝ → Option ℝ
  | some a, some b => if b = 0 then none else some (a / b)
  | _, _ => none

/-- Float-aware rendering of the loop body of `tf` at one observation
point: identical to `tfContrib` except that the divisions by `r5` are
performed in the non-finite-tracking scalars, as IEEE arithmetic performs
them. -/
noncomputable def tfContribF (f : ℝ × ℝ × ℝ) (inc decl : ℝ) (so : Option Sphere)
    (p : ℝ × ℝ × ℝ) : Option ℝ :=
  match so with
  | none => some 0
  | some s =>
    match s.props.lookup "magnetization" with
    | none => some 0
    | some mag =>
      let m := sphereDir s inc decl
      let x := p.1 - s.x
      let y := p.2.1 - s.y
      let z := p.2.2 - s.z
      let dotprod := m.1 * x + m.2.1 * y + m.2.2 * z
      let r_sqr := x ^ 2 + y ^ 2 + z ^ 2
      let r5 := r_sqr ^ (2.5 : ℝ)
      let moment := mag * 4 * Real.pi * s.radius ^ 3 / 3
      let bx := oDiv (some (moment * (3 * dotprod * x - r_sqr * m.1))) (some r5)
      let bY := oDiv (some (moment * (3 * dotprod * y - r_sqr * m.2.1))) (some r5)
      let bz := oDiv (some (moment * (3 * dotprod * z - r_sqr * m.2.2))) (some r5)
      oAdd (oAdd (oMul (some f.1) bx) (oMul (some f.2.1) bY)) (oMul (some f.2.2) bz)

/-- Float-aware accumulator of `tf` at one observation point. -/
noncomputable def tfSumF (spheres : List (Option Sphere)) (inc decl : ℝ)
    (f : ℝ × ℝ × ℝ) (p : ℝ × ℝ × ℝ) : Option ℝ :=
  spheres.foldl (fun acc so => oAdd acc (tfContribF f inc decl so p)) (some 0)

/-- Float-aware `tf`: same shape guard, values in the non-finite-tracking
scalars. -/
noncomputable def tfF (xp yp zp : List ℝ) (spheres : List (Option Sphere))
    (inc decl : ℝ) : Except String (List (Option ℝ)) :=
  if xp.length ≠ yp.length ∧ yp.length ≠ zp.length then
    Except.error "Input arrays xp, yp, and zp must have same shape!"
  else
    Except.ok ((xp.zip (yp.zip zp)).map fun p =>
      oMul (some (CM * T2NT)) (tfSumF spheres inc decl (dircos inc decl) p))

/-- Float-aware rendering of the loop body of `gz` at one observation
point. -/
noncomputable def gzContribF (so : Option Sphere) (p : ℝ × ℝ × ℝ) : Option ℝ :=
  match so with
  | none => some 0
  | some s =>
    match s.props.lookup "density" with
    | none => some 0
    | some density =>
      let x := p.1 - s.x
      let y := p.2.1 - s.y
      let z := p.2.2 - s.z
      let r_cb := (x ^ 2 + y ^ 2 + z ^ 2) ^ (1.5 : ℝ)
      let mass := density * 4 * Real.pi * s.radius ^ 3 / 3
      oDiv (some (mass * z)) (some r_cb)

/-- Float-aware accumulator of `gz` at one observation point. -/
noncomputable def gzSumF (spheres : List (Option Sphere)) (p : ℝ × ℝ × ℝ) : Option ℝ :=
  spheres.foldl (fun acc so => oAdd acc (gzContribF so p)) (some 0)

/-- Float-aware `gz`. -/
noncomputable def gzF (xp yp zp : List ℝ) (spheres : List (Option Sphere)) :
    Except String (List (Option ℝ)) :=
  if xp.length ≠ yp.length ∧ yp.length ≠ zp.length then
    Except.error "Input arrays xp, yp, and zp must have same shape!"
  else
    Except.ok ((xp.zip (yp.zip zp)).map fun p =>
      oMul (some (G * SI2MGAL)) (gzSumF spheres p))

/-- The sources of `tf` that actually contribute: non-null and carrying
the "magnetization" property (the loop's `continue` guard). -/
def tfKeep : Option Sphere → Bool
  | none => false
  | some s => (s.props.lookup "magnetization").isSome

/-- The sources of `gz` that actually contribute: non-null and carrying
the "density" property. -/
def gzKeep : Option Sphere → Bool
  | none => false
  | some s => (s.props.lookup "density").isSome

/-- One elementwise binary operation of numpy on one-dimensional arrays:
equal lengths operate pairwise, a length-1 operand broadcasts against the
other, and any other pair of lengths raises a broadcast ValueError (whose
numpy message also names the two shapes; the fixed string here stands in
for it, and is distinct from the shape-validation message). -/
def bop (f : ℝ → ℝ → ℝ) (a b : List ℝ) : Except String (List ℝ) :=
  if a.length = b.length then Except.ok (List.zipWith f a b)
  else if a.length = 1 then Except.ok (b.map fun v => f (a.headD 0) v)
  else if b.length = 1 then Except.ok (a.map fun u => f u (b.headD 0))
  else Except.error "operands could not be broadcast together"

/-- The loop body of `tf` for one contributing sphere under numpy
broadcast semantics: scalar-array products, differences with a scalar and
elementwise powers are maps; every array-array operation goes through
`bop`, in the source's evaluation order.  `bY` renders the source's `by`
(a Lean keyword). -/
noncomputable def tfContribB (f : ℝ × ℝ × ℝ) (inc decl : ℝ) (s : Sphere) (mag : ℝ)
    (xp yp zp : List ℝ) : Except String (List ℝ) :=
  let m := sphereDir s inc decl
  let x := xp.map fun v => v - s.x
  let y := yp.map fun v => v - s.y
  let z := zp.map fun v => v - s.z
  Except.bind (bop (fun a b => a + b) (x.map fun v => m.1 * v) (y.map fun v => m.2.1 * v)) fun d1 =>
  Except.bind (bop (fun a b => a + b) d1 (z.map fun v => m.2.2 * v)) fun dotprod =>
  Except.bind (bop (fun a b => a + b) (x.map fun v => v ^ 2) (y.map fun v => v ^ 2)) fun q1 =>
  Except.bind (bop (fun a b => a + b) q1 (z.map fun v => v ^ 2)) fun r_sqr =>
  let r5 := r_sqr.map fun v => v ^ (2.5 : ℝ)
  let moment := mag * 4 * Real.pi * s.radius ^ 3 / 3
  Except.bind (bop (fun a b => a * b) (dotprod.map fun v => 3 * v) x) fun tx =>
  Except.bind (bop (fun a b => a - b) tx (r_sqr.map fun v => v * m.1)) fun nx =>
  Except.bind (bop (fun a b => a / b) (nx.map fun v => moment * v) r5) fun bx =>
  Except.bind (bop (fun a b => a * b) (dotprod.map fun v => 3 * v) y) fun ty =>
  Except.bind (bop (fun a b => a - b) ty (r_sqr.map fun v => v * m.2.1)) fun ny =>
  Except.bind (bop (fun a b => a / b) (ny.map fun v => moment * v) r5) fun bY =>
  Except.bind (bop (fun a b => a * b) (dotprod.map fun v => 3 * v) z) fun tz =>
  Except.bind (bop (fun a b => a - b) tz (r_sqr.map fun v => v * m.2.2)) fun nz =>
  Except.bind (bop (fun a b => a / b) (nz.map fun v => moment * v) r5) fun bz =>
  Except.bind (bop (fun a b => a + b) (bx.map fun v => f.1 * v) (bY.map fun v => f.2.1 * v)) fun s1 =>
  bop (fun a b => a + b) s1 (bz.map fun v => f.2.2 * v)

/-- The loop of `tf` under numpy broadcast semantics: the skip guard,
then the contribution array, then the accumulation `tf = tf + (...)`
(itself a broadcasting addition), threading the accumulator. -/
noncomputable def tfLoopB (xp yp zp : List ℝ) (inc decl : ℝ) (f : ℝ × ℝ × ℝ) :
    List (Option Sphere) → List ℝ → Except String (List ℝ)
  | [], acc => Except.ok acc
  | so :: rest, acc =>
    match so with
    | none => tfLoopB xp yp zp inc decl f rest acc
    | some s =>
      match s.props.lookup "magnetization" with
      | none => tfLoopB xp yp zp inc decl f rest acc
      | some mag =>
        Except.bind (tfContribB f inc decl s mag xp yp zp) fun contrib =>
        Except.bind (bop (fun a b => a + b) acc contrib) fun acc2 =>
        tfLoopB xp yp zp inc decl f rest acc2

/-- `tf` under numpy broadcast semantics: the chained-comparison shape
guard, the accumulator `zeros_like(xp)`, the source loop, and the final
scalar multiplication by `CM*T2NT`. -/
noncomputable def tfB (xp yp zp : List ℝ) (spheres : List (Option Sphere))
    (inc decl : ℝ) : Except String (List ℝ) :=
  if xp.length ≠ yp.length ∧ yp.length ≠ zp.length then
    Except.error "Input arrays xp, yp, and zp must have same shape!"
  else
    Except.bind (tfLoopB xp yp zp inc decl (dircos inc decl) spheres
        (List.replicate xp.length 0))
      fun acc => Except.ok (acc.map fun v => CM * T2NT * v)

/-- The loop body of `gz` for one contributing sphere under numpy
broadcast semantics. -/
noncomputable def gzContribB (s : Sphere) (density : ℝ) (xp yp zp : List ℝ) :
    Except String (List ℝ) :=
  let x := xp.map fun v => v - s.x
  let y := yp.map fun v => v - s.y
  let z := zp.map fun v => v - s.z
  Except.bind (bop (fun a b => a + b) (x.map fun v => v ^ 2) (y.map fun v => v ^ 2)) fun q1 =>
  Except.bind (bop (fun a b => a + b) q1 (z.map fun v => v ^ 2)) fun q2 =>
  let r_cb := q2.map fun v => v ^ (1.5 : ℝ)
  let mass := density * 4 * Real.pi * s.radius ^ 3 / 3
  bop (fun a b => a / b) (z.map fun v => mass * v) r_cb

/-- The loop of `gz` under numpy broadcast semantics. -/
noncomputable def gzLoopB (xp yp zp : List ℝ) :
    List (Option Sphere) → List ℝ → Except String (List ℝ)
  | [], acc => Except.ok acc
  | so :: rest, acc =>
    match so with
    | none => gzLoopB xp yp zp rest acc
    | some s =>
      match s.props.lookup "density" with
      | none => gzLoopB xp yp zp rest acc
      | some density =>
        Except.bind (gzContribB s density xp yp zp) fun contrib =>
        Except.bind (bop (fun a b => a + b) acc contrib) fun acc2 =>
        gzLoopB xp yp zp rest acc2

/-- `gz` under numpy broadcast semantics. -/
noncomputable def gzB (xp yp zp : List ℝ) (spheres : List (Option Sphere)) :
    Except String (List ℝ) :=
  if xp.length ≠ yp.length ∧ yp.length ≠ zp.length then
    Except.error "Input arrays xp, yp, and zp must have same shape!"
  else
    Except.bind (gzLoopB xp yp zp spheres (List.replicate xp.length 0))
      fun acc => Except.ok (acc.map fun v => G * SI2MGAL * v)

/-- A result whose only possible error is the broadcast error: every
error it can carry is the broadcast message, never the shape-validation
message. -/
def onlyBroadcastErrors (r : Except String (List ℝ)) : Prop :=
  ∀ e, r = Except.error e → e = "operands could not be broadcast together"

/-! Shared helper lemmas. -/

theorem foldl_add_map_sum {α : Type} (f : α → ℝ) (c : ℝ) (l : List α) :
    l.foldl (fun acc a => acc + f a) c = c + (l.map f).sum := by
  induction l generalizing c with
  | nil => simp
  | cons a t ih => simp [ih, add_assoc]

theorem tfSum_eq_map_sum (spheres : List (Option Sphere)) (inc decl : ℝ)
    (f p : ℝ × ℝ × ℝ) :
    tfSum spheres inc decl f p = (spheres.map fun so => tfContrib f inc decl so p).sum := by
  unfold tfSum
  rw [foldl_add_map_sum]
  simp

theorem gzSum_eq_map_sum (spheres : List (Option Sphere)) (p : ℝ × ℝ × ℝ) :
    gzSum spheres p = (spheres.map fun so => gzContrib so p).sum := by
  unfold gzSum
  rw [foldl_add_map_sum]
  simp

theorem zip3_length (xp yp zp : List ℝ) (hxy : xp.length = yp.length)
    (hyz : yp.length = zp.length) : (xp.zip (yp.zip zp)).length = xp.length := by
  simp [List.length_zip, hxy, hyz]

theorem zip3_getElem (xp yp zp : List ℝ) (i : ℕ) (h : i < (xp.zip (yp.zip zp)).length) :
    (xp.zip (yp.zip zp)).get ⟨i, h⟩ =
      (xp.getD i 0, yp.getD i 0, zp.getD i 0) := by
  have h1 : i < xp.length := by
    simp only [List.length_zip, lt_min_iff] at h
    exact h.1
  have h2 : i < yp.length := by
    simp only [List.length_zip, lt_min_iff] at h
    exact h.2.1
  have h3 : i < zp.length := by
    simp only [List.length_zip, lt_min_iff] at h
    exact h.2.2
  rw [List.get_eq_getElem, List.getElem_zip, List.getElem_zip]
  rw [List.getD_eq_getElem xp 0 h1, List.getD_eq_getElem yp 0 h2, List.getD_eq_getElem zp 0 h3]

/-! Theorems settling the claims. -/

/-- Claim C5: for every inclination and declination in degrees, `_dircos`
returns exactly the vector
(cos inc'·cos dec', cos inc'·sin dec', sin inc') with inc' = inc·π/180 and
dec' = dec·π/180; it is total on the reals (no failure modes). -/
theorem dircos_formula (inc decl : ℝ) :
    dircos inc decl =
      (Real.cos (inc * Real.pi / 180) * Real.cos (decl * Real.pi / 180),
       Real.cos (inc * Real.pi / 180) * Real.sin (decl * Real.pi / 180),
       Real.sin (inc * Real.pi / 180)) := by
  unfold dircos
  ring_nf

/-- Claim C6: the vector returned by `_dircos` has Euclidean length 1
(exactly, over real arithmetic). -/
theorem dircos_unit_length (inc decl : ℝ) :
    Real.sqrt ((dircos inc decl).1 ^ 2 + (dircos inc decl).2.1 ^ 2 +
      (dircos inc decl).2.2 ^ 2) = 1 := by
  have h : (dircos inc decl).1 ^ 2 + (dircos inc decl).2.1 ^ 2 +
      (dircos inc decl).2.2 ^ 2 = 1 := by
    simp only [dircos]
    have hd := Real.sin_sq_add_cos_sq (Real.pi / 180 * decl)
    have hi := Real.sin_sq_add_cos_sq (Real.pi / 180 * inc)
    linear_combination Real.cos (Real.pi / 180 * inc) ^ 2 * hd + hi
  rw [h, Real.sqrt_one]

theorem ok_onlyBroadcastErrors (v : List ℝ) : onlyBroadcastErrors (Except.ok v) := by
  intro e he
  exact Except.noConfusion he

theorem bop_onlyBroadcastErrors (f : ℝ → ℝ → ℝ) (a b : List ℝ) :
    onlyBroadcastErrors (bop f a b) := by
  intro e he
  unfold bop at he
  split at he
  · exact Except.noConfusion he
  · split at he
    · exact Except.noConfusion he
    · split at he
      · exact Except.noConfusion he
      · injection he with he'
        exact he'.symm

theorem bind_onlyBroadcastErrors {x : Except String (List ℝ)}
    {g : List ℝ → Except String (List ℝ)} (hx : onlyBroadcastErrors x)
    (hg : ∀ v, onlyBroadcastErrors (g v)) :
    onlyBroadcastErrors (Except.bind x g) := by
  intro e he
  cases x with
  | error e₀ =>
    rw [show Except.bind (Except.error e₀) g = (Except.error e₀ : Except String (List ℝ))
      from rfl] at he
    exact hx e he
  | ok v =>
    rw [show Except.bind (Except.ok v) g = g v from rfl] at he
    exact hg v e he

theorem tfContribB_onlyBroadcastErrors (f : ℝ × ℝ × ℝ) (inc decl : ℝ) (s : Sphere)
    (mag : ℝ) (xp yp zp : List ℝ) :
    onlyBroadcastErrors (tfContribB f inc decl s mag xp yp zp) := by
  simp only [tfContribB]
  refine bind_onlyBroadcastErrors (bop_onlyBroadcastErrors _ _ _) fun d1 => ?_
  refine bind_onlyBroadcastErrors (bop_onlyBroadcastErrors _ _ _) fun dotprod => ?_
  refine bind_onlyBroadcastErrors (bop_onlyBroadcastErrors _ _ _) fun q1 => ?_
  refine bind_onlyBroadcastErrors (bop_onlyBroadcastErrors _ _ _) fun r_sqr => ?_
  refine bind_onlyBroadcastErrors (bop_onlyBroadcastErrors _ _ _) fun tx => ?_
  refine bind_onlyBroadcastErrors (bop_onlyBroadcastErrors _ _ _) fun nx => ?_
  refine bind_onlyBroadcastErrors (bop_onlyBroadcastErrors _ _ _) fun bx => ?_
  refine bind_onlyBroadcastErrors (bop_onlyBroadcastErrors _ _ _) fun ty => ?_
  refine bind_onlyBroadcastErrors (bop_onlyBroadcastErrors _ _ _) fun ny => ?_
  refine bind_onlyBroadcastErrors (bop_onlyBroadcastErrors _ _ _) fun bY => ?_
  refine bind_onlyBroadcastErrors (bop_onlyBroadcastErrors _ _ _) fun tz => ?_
  refine bind_onlyBroadcastErrors (bop_onlyBroadcastErrors _ _ _) fun nz => ?_
  refine bind_onlyBroadcastErrors (bop_onlyBroadcastErrors _ _ _) fun bz => ?_
  refine bind_onlyBroadcastErrors (bop_onlyBroadcastErrors _ _ _) fun s1 => ?_
  exact bop_onlyBroadcastErrors _ _ _

theorem gzContribB_onlyBroadcastErrors (s : Sphere) (density : ℝ) (xp yp zp : List ℝ) :
    onlyBroadcastErrors (gzContribB s density xp yp zp) := by
  simp only [gzContribB]
  refine bind_onlyBroadcastErrors (bop_onlyBroadcastErrors _ _ _) fun q1 => ?_
  refine bind_onlyBroadcastErrors (bop_onlyBroadcastErrors _ _ _) fun q2 => ?_
  exact bop_onlyBroadcastErrors _ _ _

theorem tfLoopB_onlyBroadcastErrors (xp yp zp : List ℝ) (inc decl : ℝ) (f : ℝ × ℝ × ℝ)
    (spheres : List (Option Sphere)) (acc : List ℝ) :
    onlyBroadcastErrors (tfLoopB xp yp zp inc decl f spheres acc) := by
  induction spheres generalizing acc with
  | nil =>
    simp only [tfLoopB]
    exact ok_onlyBroadcastErrors acc
  | cons so rest ih =>
    rcases so with _ | s
    · simp only [tfLoopB]
      exact ih acc
    · rcases hm : s.props.lookup "magnetization" with _ | mag
      · simp only [tfLoopB, hm]
        exact ih acc
      · simp only [tfLoopB, hm]
        refine bind_onlyBroadcastErrors
          (tfContribB_onlyBroadcastErrors f inc decl s mag xp yp zp) fun contrib => ?_
        refine bind_onlyBroadcastErrors (bop_onlyBroadcastErrors _ _ _) fun acc2 => ?_
        exact ih acc2

theorem gzLoopB_onlyBroadcastErrors (xp yp zp : List ℝ)
    (spheres : List (Option Sphere)) (acc : List ℝ) :
    onlyBroadcastErrors (gzLoopB xp yp zp spheres acc) := by
  induction spheres generalizing acc with
  | nil =>
    simp only [gzLoopB]
    exact ok_onlyBroadcastErrors acc
  | cons so rest ih =>
    rcases so with _ | s
    · simp only [gzLoopB]
      exact ih acc
    · rcases hm : s.props.lookup "density" with _ | density
      · simp only [gzLoopB, hm]
        exact ih acc
      · simp only [gzLoopB, hm]
        refine bind_onlyBroadcastErrors
          (gzContribB_onlyBroadcastErrors s density xp yp zp) fun contrib => ?_
        refine bind_onlyBroadcastErrors (bop_onlyBroadcastErrors _ _ _) fun acc2 => ?_
        exact ih acc2

theorem tfLoopB_skip_all (xp yp zp : List ℝ) (inc decl : ℝ) (f : ℝ × ℝ × ℝ)
    (spheres : List (Option Sphere)) (h : spheres.filter tfKeep = []) (acc : List ℝ) :
    tfLoopB xp yp zp inc decl f spheres acc = Except.ok acc := by
  induction spheres generalizing acc with
  | nil => simp only [tfLoopB]
  | cons so rest ih =>
    have hkeep : tfKeep so = false := by
      by_cases hk : tfKeep so = true
      · rw [List.filter_cons, if_pos hk] at h
        exact List.noConfusion h
      · revert hk
        cases tfKeep so <;> simp
    have hrest : rest.filter tfKeep = [] := by
      rw [List.filter_cons, if_neg (by simp [hkeep])] at h
      exact h
    rcases so with _ | s
    · simp only [tfLoopB]
      exact ih hrest acc
    · have hm : s.props.lookup "magnetization" = none := by
        simp only [tfKeep] at hkeep
        exact Option.not_isSome_iff_eq_none.mp (by simp [hkeep])
      simp only [tfLoopB, hm]
      exact ih hrest acc

theorem gzLoopB_skip_all (xp yp zp : List ℝ)
    (spheres : List (Option Sphere)) (h : spheres.filter gzKeep = []) (acc : List ℝ) :
    gzLoopB xp yp zp spheres acc = Except.ok acc := by
  induction spheres generalizing acc with
  | nil => simp only [gzLoopB]
  | cons so rest ih =>
    have hkeep : gzKeep so = false := by
      by_cases hk : gzKeep so = true
      · rw [List.filter_cons, if_pos hk] at h
        exact List.noConfusion h
      · revert hk
        cases gzKeep so <;> simp
    have hrest : rest.filter gzKeep = [] := by
      rw [List.filter_cons, if_neg (by simp [hkeep])] at h
      exact h
    rcases so with _ | s
    · simp only [gzLoopB]
      exact ih hrest acc
    · have hm : s.props.lookup "density" = none := by
        simp only [gzKeep] at hkeep
        exact Option.not_isSome_iff_eq_none.mp (by simp [hkeep])
      simp only [gzLoopB, hm]
      exact ih hrest acc

/-- Claim C10: under numpy broadcast semantics (`tfB`, `gzB`), the shape
validation is the Python chained comparison
`xp.shape != yp.shape != zp.shape`, i.e.
`xp.shape != yp.shape and yp.shape != zp.shape`: the ShapeMismatch error
is returned exactly when both adjacent pairs differ, so whenever `xp` and
`yp` share a shape (or `yp` and `zp` do) the validation passes regardless
of the third array and evaluation proceeds into the numeric work with the
mismatched array — which may then complete (for example, with
`zeros_like(xp)` whenever no source contributes) or fail with a distinct
broadcast error, but never with the shape-validation error. -/
theorem shape_guard_chained (xp yp zp : List ℝ) (spheres : List (Option Sphere))
    (inc decl : ℝ) :
    (tfB xp yp zp spheres inc decl =
        Except.error "Input arrays xp, yp, and zp must have same shape!" ↔
      (xp.length ≠ yp.length ∧ yp.length ≠ zp.length)) ∧
    (gzB xp yp zp spheres =
        Except.error "Input arrays xp, yp, and zp must have same shape!" ↔
      (xp.length ≠ yp.length ∧ yp.length ≠ zp.length)) ∧
    (spheres.filter tfKeep = [] → ¬(xp.length ≠ yp.length ∧ yp.length ≠ zp.length) →
      tfB xp yp zp spheres inc decl = Except.ok (List.replicate xp.length 0)) ∧
    (spheres.filter gzKeep = [] → ¬(xp.length ≠ yp.length ∧ yp.length ≠ zp.length) →
      gzB xp yp zp spheres = Except.ok (List.replicate xp.length 0)) := by
  refine ⟨?_, ?_, ?_, ?_⟩
  · constructor
    · intro h
      by_contra hchain
      unfold tfB at h
      rw [if_neg hchain] at h
      have hb := bind_onlyBroadcastErrors
        (tfLoopB_onlyBroadcastErrors xp yp zp inc decl (dircos inc decl) spheres
          (List.replicate xp.length 0))
        (fun v => ok_onlyBroadcastErrors (v.map fun u => CM * T2NT * u))
      exact absurd (hb _ h) (by decide)
    · intro hchain
      unfold tfB
      rw [if_pos hchain]
  · constructor
    · intro h
      by_contra hchain
      unfold gzB at h
      rw [if_neg hchain] at h
      have hb := bind_onlyBroadcastErrors
        (gzLoopB_onlyBroadcastErrors xp yp zp spheres (List.replicate xp.length 0))
        (fun v => ok_onlyBroadcastErrors (v.map fun u => G * SI2MGAL * u))
      exact absurd (hb _ h) (by decide)
    · intro hchain
      unfold gzB
      rw [if_pos hchain]
  · intro hempty hchain
    unfold tfB
    rw [if_neg hchain]
    rw [tfLoopB_skip_all xp yp zp inc decl (dircos inc decl) spheres hempty
      (List.replicate xp.length 0)]
    rw [show Except.bind (Except.ok (List.replicate xp.length (0 : ℝ)))
        (fun acc => Except.ok (acc.map fun v => CM * T2NT * v)) =
        Except.ok ((List.replicate xp.length (0 : ℝ)).map fun v => CM * T2NT * v)
      from rfl]
    simp [List.map_replicate]
  · intro hempty hchain
    unfold gzB
    rw [if_neg hchain]
    rw [gzLoopB_skip_all xp yp zp spheres hempty (List.replicate xp.length 0)]
    rw [show Except.bind (Except.ok (List.replicate xp.length (0 : ℝ)))
        (fun acc => Except.ok (acc.map fun v => G * SI2MGAL * v)) =
        Except.ok ((List.replicate xp.length (0 : ℝ)).map fun v => G * SI2MGAL * v)
      from rfl]
    simp [List.map_replicate]

/-- Claim C10 witness: under broadcast semantics, with `xp` of shape
(3,), `yp` and `zp` of shape (4,) and no sources, both evaluators pass
the validation and complete with the three zeros of `zeros_like(xp)`. -/
theorem shape_guard_chained_witness :
    tfB [0, 0, 0] [0, 0, 0, 0] [0, 0, 0, 0] [] 0 0 = Except.ok [0, 0, 0] ∧
    gzB [0, 0, 0] [0, 0, 0, 0] [0, 0, 0, 0] [] = Except.ok [0, 0, 0] := by
  have h := shape_guard_chained [0, 0, 0] [0, 0, 0, 0] [0, 0, 0, 0] [] 0 0
  constructor
  · have ht := h.2.2.1 rfl (by decide)
    simpa using ht
  · have hg := h.2.2.2 rfl (by decide)
    simpa using hg

/-- Claim C1: the claim asserts that `xp` of shape (3,) and `yp` of shape
(4,) raise for every `zp`; the code does not raise when `zp` also has
shape (4,), because the chained comparison only tests `xp` against `yp`
and `yp` against `zp`.  This theorem evaluates both evaluators at that
failing input and shows they return successfully instead of raising. -/
theorem shape_check_misses_mismatch :
    tf [0, 0, 0] [0, 1, 2, 3] [0, 1, 2, 3] [] 0 0 =
      Except.ok (tfArr [0, 0, 0] [0, 1, 2, 3] [0, 1, 2, 3] [] 0 0) ∧
    gz [0, 0, 0] [0, 1, 2, 3] [0, 1, 2, 3] [] =
      Except.ok (gzArr [0, 0, 0] [0, 1, 2, 3] [0, 1, 2, 3] []) := by
  constructor
  · unfold tf
    rw [if_neg (by simp)]
  · unfold gz
    rw [if_neg (by simp)]

/-- Claim C2: on same-shape inputs `tf` succeeds and, at every observation
point, returns CM·T2NT times the sum over sources of the projected dipole
field: contributing sources (non-null, with "magnetization") contribute
fx·bx + fy·by + fz·bz with moment = magnetization·(4/3)·π·radius³,
dot = mx·x + my·y + mz·z, r² = x² + y² + z², and
bx = moment·(3·dot·x − r²·mx)/(r²)^2.5 (and analogously by, bz); all other
entries contribute 0. -/
theorem tf_dipole_formula (xp yp zp : List ℝ) (spheres : List (Option Sphere))
    (inc decl : ℝ) (hxy : xp.length = yp.length) (hyz : yp.length = zp.length) :
    tf xp yp zp spheres inc decl = Except.ok (tfArr xp yp zp spheres inc decl) ∧
    (tfArr xp yp zp spheres inc decl).length = xp.length ∧
    ∀ i, i < xp.length →
      (tfArr xp yp zp spheres inc decl).getD i 0 =
        CM * T2NT * (spheres.map fun so =>
          match so with
          | none => (0 : ℝ)
          | some s =>
            match s.props.lookup "magnetization" with
            | none => (0 : ℝ)
            | some mag =>
              let f := dircos inc decl
              let m := sphereDir s inc decl
              let x := xp.getD i 0 - s.x
              let y := yp.getD i 0 - s.y
              let z := zp.getD i 0 - s.z
              let moment := mag * ((4 : ℝ) / 3) * Real.pi * s.radius ^ 3
              let dot := m.1 * x + m.2.1 * y + m.2.2 * z
              let r2 := x ^ 2 + y ^ 2 + z ^ 2
              f.1 * (moment * (3 * dot * x - r2 * m.1) / r2 ^ (2.5 : ℝ)) +
              f.2.1 * (moment * (3 * dot * y - r2 * m.2.1) / r2 ^ (2.5 : ℝ)) +
              f.2.2 * (moment * (3 * dot * z - r2 * m.2.2) / r2 ^ (2.5 : ℝ))).sum := by
  have hlen := zip3_length xp yp zp hxy hyz
  refine ⟨?_, ?_, ?_⟩
  · unfold tf
    rw [if_neg (by simp [hxy])]
  · unfold tfArr
    simp [hlen]
  · intro i hi
    have h1 : i < xp.length := hi
    have h2 : i < yp.length := hxy ▸ hi
    have h3 : i < zp.length := by omega
    unfold tfArr
    rw [List.getD_eq_getElem _ 0 (by simp only [List.length_map, hlen]; exact hi)]
    rw [List.getElem_map, List.getElem_zip, List.getElem_zip]
    rw [List.getD_eq_getElem xp 0 h1, List.getD_eq_getElem yp 0 h2,
      List.getD_eq_getElem zp 0 h3]
    rw [tfSum_eq_map_sum]
    congr 2
    apply List.map_congr_left
    intro so _
    rcases so with _ | s
    · simp [tfContrib]
    · rcases hm : s.props.lookup "magnetization" with _ | mag
      · simp [tfContrib, hm]
      · simp only [tfContrib, hm]
        ring

/-- Claim C2 witness: at the concrete same-shape input xp = yp = zp = [0]
with no sources, the hypotheses of `tf_dipole_formula` hold and `tf`
succeeds. -/
theorem tf_dipole_formula_witness :
    (tf [0] [0] [0] [] 0 0).isOk = true := by
  have h := tf_dipole_formula [0] [0] [0] [] 0 0 rfl rfl
  rw [h.1]
  rfl

/-- Claim C3: on same-shape inputs `gz` succeeds and, at every observation
point, returns G·SI2MGAL times the sum over sources of mass·z/r³ with
mass = density·(4/3)·π·radius³ and r³ = (x²+y²+z²)^1.5; null sources and
sources without "density" contribute 0. -/
theorem gz_pointmass_formula (xp yp zp : List ℝ) (spheres : List (Option Sphere))
    (hxy : xp.length = yp.length) (hyz : yp.length = zp.length) :
    gz xp yp zp spheres = Except.ok (gzArr xp yp zp spheres) ∧
    (gzArr xp yp zp spheres).length = xp.length ∧
    ∀ i, i < xp.length →
      (gzArr xp yp zp spheres).getD i 0 =
        G * SI2MGAL * (spheres.map fun so =>
          match so with
          | none => (0 : ℝ)
          | some s =>
            match s.props.lookup "density" with
            | none => (0 : ℝ)
            | some density =>
              let x := xp.getD i 0 - s.x
              let y := yp.getD i 0 - s.y
              let z := zp.getD i 0 - s.z
              let mass := density * ((4 : ℝ) / 3) * Real.pi * s.radius ^ 3
              mass * z / ((x ^ 2 + y ^ 2 + z ^ 2) ^ (1.5 : ℝ))).sum := by
  have hlen := zip3_length xp yp zp hxy hyz
  refine ⟨?_, ?_, ?_⟩
  · unfold gz
    rw [if_neg (by simp [hxy])]
  · unfold gzArr
    simp [hlen]
  · intro i hi
    have h1 : i < xp.length := hi
    have h2 : i < yp.length := hxy ▸ hi
    have h3 : i < zp.length := by omega
    unfold gzArr
    rw [List.getD_eq_getElem _ 0 (by simp only [List.length_map, hlen]; exact hi)]
    rw [List.getElem_map, List.getElem_zip, List.getElem_zip]
    rw [List.getD_eq_getElem xp 0 h1, List.getD_eq_getElem yp 0 h2,
      List.getD_eq_getElem zp 0 h3]
    rw [gzSum_eq_map_sum]
    congr 2
    apply List.map_congr_left
    intro so _
    rcases so with _ | s
    · simp [gzContrib]
    · rcases hm : s.props.lookup "density" with _ | density
      · simp [gzContrib, hm]
      · simp only [gzContrib, hm]
        ring

/-- Claim C3 witness: at the concrete same-shape input xp = yp = zp = [0]
with no sources, the hypotheses of `gz_pointmass_formula` hold and `gz`
succeeds. -/
theorem gz_pointmass_formula_witness :
    (gz [0] [0] [0] []).isOk = true := by
  have h := gz_pointmass_formula [0] [0] [0] [] rfl rfl
  rw [h.1]
  rfl

/-- Claim C4: inside `tf`, a source's magnetization direction is its own
`_dircos(inclination, declination)` exactly when both "inclination" and
"declination" are present in its property lookup, and the ambient
direction otherwise; and the projection multipliers of a contributing
source's field are always the components of the ambient vector
`_dircos(inc, dec)`, while only the moment direction `m` follows the
per-source rule. -/
theorem tf_direction_override (s : Sphere) (inc decl : ℝ) :
    (∀ i d, s.props.lookup "inclination" = some i →
        s.props.lookup "declination" = some d →
        sphereDir s inc decl = dircos i d) ∧
    ((s.props.lookup "inclination" = none ∨ s.props.lookup "declination" = none) →
        sphereDir s inc decl = dircos inc decl) ∧
    (∀ mag, s.props.lookup "magnetization" = some mag → ∀ p : ℝ × ℝ × ℝ,
        tfContrib (dircos inc decl) inc decl (some s) p =
          let f := dircos inc decl
          let m := sphereDir s inc decl
          let x := p.1 - s.x
          let y := p.2.1 - s.y
          let z := p.2.2 - s.z
          let dotprod := m.1 * x + m.2.1 * y + m.2.2 * z
          let r_sqr := x ^ 2 + y ^ 2 + z ^ 2
          let r5 := r_sqr ^ (2.5 : ℝ)
          let moment := mag * 4 * Real.pi * s.radius ^ 3 / 3
          f.1 * (moment * (3 * dotprod * x - r_sqr * m.1) / r5) +
          f.2.1 * (moment * (3 * dotprod * y - r_sqr * m.2.1) / r5) +
          f.2.2 * (moment * (3 * dotprod * z - r_sqr * m.2.2) / r5)) := by
  refine ⟨?_, ?_, ?_⟩
  · intro i d hi hd
    simp [sphereDir, hi, hd]
  · intro h
    rcases h with h | h <;> simp [sphereDir, h]
  · intro mag hm p
    simp only [tfContrib, hm]

/-- Claim C4 witness: a concrete sphere carrying both override properties
uses its own direction, and one lacking "declination" falls back to the
ambient direction. -/
theorem tf_direction_override_witness :
    sphereDir (Sphere.mk 0 0 0 1 [("magnetization", 1), ("inclination", 90), ("declination", 10)]) 2 3 =
      dircos 90 10 ∧
    sphereDir (Sphere.mk 0 0 0 1 [("magnetization", 1), ("inclination", 90)]) 2 3 =
      dircos 2 3 :=
  ⟨(tf_direction_override
      (Sphere.mk 0 0 0 1 [("magnetization", 1), ("inclination", 90), ("declination", 10)]) 2 3).1
      90 10 rfl rfl,
   (tf_direction_override
      (Sphere.mk 0 0 0 1 [("magnetization", 1), ("inclination", 90)]) 2 3).2.1
      (Or.inr rfl)⟩

theorem map_sum_filter_eq {α : Type} (keep : α → Bool) (f : α → ℝ)
    (h0 : ∀ a, keep a = false → f a = 0) (l : List α) :
    (l.map f).sum = ((l.filter keep).map f).sum := by
  induction l with
  | nil => rfl
  | cons a t ih =>
    by_cases hk : keep a = true
    · simp [List.filter_cons, hk, ih]
    · have hz := h0 a (by simpa using hk)
      simp [List.filter_cons, hk, hz, ih]

/-- Claim C7: null entries and sources lacking the required property
("magnetization" for `tf`, "density" for `gz`) are skipped silently:
evaluating on a source list gives the same result as evaluating on the
list with those entries removed. -/
theorem skip_null_and_missing (xp yp zp : List ℝ) (spheres : List (Option Sphere))
    (inc decl : ℝ) :
    tf xp yp zp spheres inc decl = tf xp yp zp (spheres.filter tfKeep) inc decl ∧
    gz xp yp zp spheres = gz xp yp zp (spheres.filter gzKeep) := by
  have htf : ∀ f p, tfSum spheres inc decl f p =
      tfSum (spheres.filter tfKeep) inc decl f p := by
    intro f p
    rw [tfSum_eq_map_sum, tfSum_eq_map_sum]
    apply map_sum_filter_eq
    intro so h
    rcases so with _ | s
    · simp [tfContrib]
    · simp only [tfKeep] at h
      rcases hm : s.props.lookup "magnetization" with _ | mag
      · simp [tfContrib, hm]
      · rw [hm] at h
        simp at h
  have hgz : ∀ p, gzSum spheres p = gzSum (spheres.filter gzKeep) p := by
    intro p
    rw [gzSum_eq_map_sum, gzSum_eq_map_sum]
    apply map_sum_filter_eq
    intro so h
    rcases so with _ | s
    · simp [gzContrib]
    · simp only [gzKeep] at h
      rcases hm : s.props.lookup "density" with _ | density
      · simp [gzContrib, hm]
      · rw [hm] at h
        simp at h
  have harrT : tfArr xp yp zp spheres inc decl =
      tfArr xp yp zp (spheres.filter tfKeep) inc decl := by
    unfold tfArr
    apply List.map_congr_left
    intro p _
    rw [htf]
  have harrG : gzArr xp yp zp spheres = gzArr xp yp zp (spheres.filter gzKeep) := by
    unfold gzArr
    apply List.map_congr_left
    intro p _
    rw [hgz]
  constructor
  · unfold tf
    rw [harrT]
  · unfold gz
    rw [harrG]

theorem tfArr_length (xp yp zp : List ℝ) (spheres : List (Option Sphere))
    (inc decl : ℝ) (hxy : xp.length = yp.length) (hyz : yp.length = zp.length) :
    (tfArr xp yp zp spheres inc decl).length = xp.length := by
  unfold tfArr
  simp [zip3_length xp yp zp hxy hyz]

theorem gzArr_length (xp yp zp : List ℝ) (spheres : List (Option Sphere))
    (hxy : xp.length = yp.length) (hyz : yp.length = zp.length) :
    (gzArr xp yp zp spheres).length = xp.length := by
  unfold gzArr
  simp [zip3_length xp yp zp hxy hyz]

theorem tfArr_getD (xp yp zp : List ℝ) (spheres : List (Option Sphere))
    (inc decl : ℝ) (hxy : xp.length = yp.length) (hyz : yp.length = zp.length)
    (i : ℕ) (hi : i < xp.length) :
    (tfArr xp yp zp spheres inc decl).getD i 0 =
      CM * T2NT * tfSum spheres inc decl (dircos inc decl)
        (xp.getD i 0, yp.getD i 0, zp.getD i 0) := by
  have hlen := zip3_length xp yp zp hxy hyz
  have h1 : i < xp.length := hi
  have h2 : i < yp.length := hxy ▸ hi
  have h3 : i < zp.length := by omega
  unfold tfArr
  rw [List.getD_eq_getElem _ 0 (by simp only [List.length_map, hlen]; exact hi)]
  rw [List.getElem_map, List.getElem_zip, List.getElem_zip]
  rw [List.getD_eq_getElem xp 0 h1, List.getD_eq_getElem yp 0 h2,
    List.getD_eq_getElem zp 0 h3]

theorem gzArr_getD (xp yp zp : List ℝ) (spheres : List (Option Sphere))
    (hxy : xp.length = yp.length) (hyz : yp.length = zp.length)
    (i : ℕ) (hi : i < xp.length) :
    (gzArr xp yp zp spheres).getD i 0 =
      G * SI2MGAL * gzSum spheres (xp.getD i 0, yp.getD i 0, zp.getD i 0) := by
  have hlen := zip3_length xp yp zp hxy hyz
  have h1 : i < xp.length := hi
  have h2 : i < yp.length := hxy ▸ hi
  have h3 : i < zp.length := by omega
  unfold gzArr
  rw [List.getD_eq_getElem _ 0 (by simp only [List.length_map, hlen]; exact hi)]
  rw [List.getElem_map, List.getElem_zip, List.getElem_zip]
  rw [List.getD_eq_getElem xp 0 h1, List.getD_eq_getElem yp 0 h2,
    List.getD_eq_getElem zp 0 h3]

/-- Claim C8: superposition — on same-shape inputs, both evaluators
succeed and, at every index, the output on the full source list equals
the sum over sources of the output of the evaluator run on the
corresponding singleton list (exactly, over real arithmetic). -/
theorem superposition (xp yp zp : List ℝ) (spheres : List (Option Sphere))
    (inc decl : ℝ) (hxy : xp.length = yp.length) (hyz : yp.length = zp.length) :
    (tf xp yp zp spheres inc decl = Except.ok (tfArr xp yp zp spheres inc decl) ∧
     ∀ i, (tfArr xp yp zp spheres inc decl).getD i 0 =
       (spheres.map fun so => (tfArr xp yp zp [so] inc decl).getD i 0).sum) ∧
    (gz xp yp zp spheres = Except.ok (gzArr xp yp zp spheres) ∧
     ∀ i, (gzArr xp yp zp spheres).getD i 0 =
       (spheres.map fun so => (gzArr xp yp zp [so]).getD i 0).sum) := by
  have hguard : ¬(xp.length ≠ yp.length ∧ yp.length ≠ zp.length) := by simp [hxy]
  refine ⟨⟨?_, ?_⟩, ?_, ?_⟩
  · unfold tf
    rw [if_neg hguard]
  · intro i
    by_cases hi : i < xp.length
    · rw [tfArr_getD xp yp zp spheres inc decl hxy hyz i hi]
      have hs : ∀ so ∈ spheres, (tfArr xp yp zp [so] inc decl).getD i 0 =
          CM * T2NT * tfContrib (dircos inc decl) inc decl so
            (xp.getD i 0, yp.getD i 0, zp.getD i 0) := by
        intro so _
        rw [tfArr_getD xp yp zp [so] inc decl hxy hyz i hi]
        rw [tfSum_eq_map_sum]
        simp
      rw [List.map_congr_left hs, List.sum_map_mul_left]
      rw [tfSum_eq_map_sum]
    · push_neg at hi
      rw [List.getD_eq_default _ 0 (by rw [tfArr_length xp yp zp spheres inc decl hxy hyz]; exact hi)]
      have hs : ∀ so ∈ spheres, (tfArr xp yp zp [so] inc decl).getD i 0 = 0 := by
        intro so _
        exact List.getD_eq_default _ 0
          (by rw [tfArr_length xp yp zp [so] inc decl hxy hyz]; exact hi)
      rw [List.map_congr_left hs]
      simp
  · unfold gz
    rw [if_neg hguard]
  · intro i
    by_cases hi : i < xp.length
    · rw [gzArr_getD xp yp zp spheres hxy hyz i hi]
      have hs : ∀ so ∈ spheres, (gzArr xp yp zp [so]).getD i 0 =
          G * SI2MGAL * gzContrib so (xp.getD i 0, yp.getD i 0, zp.getD i 0) := by
        intro so _
        rw [gzArr_getD xp yp zp [so] hxy hyz i hi]
        rw [gzSum_eq_map_sum]
        simp
      rw [List.map_congr_left hs, List.sum_map_mul_left]
      rw [gzSum_eq_map_sum]
    · push_neg at hi
      rw [List.getD_eq_default _ 0 (by rw [gzArr_length xp yp zp spheres hxy hyz]; exact hi)]
      have hs : ∀ so ∈ spheres, (gzArr xp yp zp [so]).getD i 0 = 0 := by
        intro so _
        exact List.getD_eq_default _ 0
          (by rw [gzArr_length xp yp zp [so] hxy hyz]; exact hi)
      rw [List.map_congr_left hs]
      simp

/-- Claim C8 witness: on the concrete same-shape input xp = yp = zp = [0]
with one null source, the hypotheses of `superposition` hold and `tf`
succeeds. -/
theorem superposition_witness :
    (tf [0] [0] [0] [none] 0 0).isOk = true := by
  have h := superposition [0] [0] [0] [none] 0 0 rfl rfl
  rw [h.1.1]
  rfl

theorem oAdd_some_some (a b : ℝ) : oAdd (some a) (some b) = some (a + b) := rfl

theorem oAdd_none_left (a : Option ℝ) : oAdd none a = none := by cases a <;> rfl

theorem oAdd_none_right (a : Option ℝ) : oAdd a none = none := by cases a <;> rfl

theorem oMul_some_some (a b : ℝ) : oMul (some a) (some b) = some (a * b) := rfl

theorem oMul_some_none (a : ℝ) : oMul (some a) none = none := rfl

theorem oMul_some_eq_none_iff (a : ℝ) (x : Option ℝ) :
    oMul (some a) x = none ↔ x = none := by
  cases x
  · simp [oMul_some_none]
  · simp [oMul_some_some]

theorem oDiv_some_some (a b : ℝ) :
    oDiv (some a) (some b) = if b = 0 then none else some (a / b) := rfl

theorem foldl_oAdd_none {α : Type} (c : α → Option ℝ) (l : List α) :
    l.foldl (fun acc so => oAdd acc (c so)) none = none := by
  induction l with
  | nil => rfl
  | cons a t ih =>
    rw [List.foldl_cons, oAdd_none_left]
    exact ih

theorem foldl_oAdd_eq_none_iff {α : Type} (c : α → Option ℝ) (l : List α) (r : ℝ) :
    l.foldl (fun acc so => oAdd acc (c so)) (some r) = none ↔ ∃ a ∈ l, c a = none := by
  induction l generalizing r with
  | nil => simp
  | cons a t ih =>
    rw [List.foldl_cons]
    rcases hca : c a with _ | v
    · rw [oAdd_none_right, foldl_oAdd_none]
      constructor
      · intro _
        exact ⟨a, List.mem_cons_self a t, hca⟩
      · intro _
        rfl
    · rw [oAdd_some_some, ih]
      simp only [List.mem_cons]
      constructor
      · rintro ⟨b, hb, hcb⟩
        exact ⟨b, Or.inr hb, hcb⟩
      · rintro ⟨b, hb | hb, hcb⟩
        · rw [hb, hca] at hcb
          exact absurd hcb (by simp)
        · exact ⟨b, hb, hcb⟩

theorem sum_sq_eq_zero_iff (x y z : ℝ) :
    x ^ 2 + y ^ 2 + z ^ 2 = 0 ↔ x = 0 ∧ y = 0 ∧ z = 0 := by
  constructor
  · intro h
    refine ⟨?_, ?_, ?_⟩ <;>
      nlinarith [sq_nonneg x, sq_nonneg y, sq_nonneg z]
  · rintro ⟨hx, hy, hz⟩
    rw [hx, hy, hz]
    ring

theorem rpow_sum_sq_eq_zero_iff (x y z e : ℝ) (he : e ≠ 0) :
    (x ^ 2 + y ^ 2 + z ^ 2) ^ e = 0 ↔ x = 0 ∧ y = 0 ∧ z = 0 := by
  rw [Real.rpow_eq_zero_iff_of_nonneg (by positivity)]
  rw [sum_sq_eq_zero_iff]
  exact ⟨fun h => h.1, fun h => ⟨h, he⟩⟩

theorem tfContribF_eq_none_iff (f : ℝ × ℝ × ℝ) (inc decl : ℝ)
    (so : Option Sphere) (p : ℝ × ℝ × ℝ) :
    tfContribF f inc decl so p = none ↔
      ∃ s, so = some s ∧ (s.props.lookup "magnetization").isSome = true ∧
        p.1 = s.x ∧ p.2.1 = s.y ∧ p.2.2 = s.z := by
  rcases so with _ | s
  · constructor
    · intro h
      rw [show tfContribF f inc decl none p = some 0 from rfl] at h
      exact Option.noConfusion h
    · rintro ⟨s, hs, _⟩
      exact Option.noConfusion hs
  · rcases hm : s.props.lookup "magnetization" with _ | mag
    · constructor
      · intro h
        rw [show tfContribF f inc decl (some s) p = some 0 from by
          simp [tfContribF, hm]] at h
        exact Option.noConfusion h
      · rintro ⟨s', hs', hmag, _⟩
        injection hs' with he
        subst he
        rw [hm] at hmag
        exact absurd hmag (by simp)
    · simp only [tfContribF, hm]
      by_cases hr : ((p.1 - s.x) ^ 2 + (p.2.1 - s.y) ^ 2 + (p.2.2 - s.z) ^ 2) ^ (2.5 : ℝ) = 0
      · have hc := (rpow_sum_sq_eq_zero_iff _ _ _ (2.5 : ℝ) (by norm_num)).mp hr
        rw [oDiv_some_some, oDiv_some_some, oDiv_some_some]
        rw [if_pos hr, if_pos hr, if_pos hr]
        rw [oMul_some_none, oMul_some_none, oMul_some_none]
        rw [oAdd_none_right]
        constructor
        · intro _
          exact ⟨s, rfl, by rw [hm]; rfl, sub_eq_zero.mp hc.1,
            sub_eq_zero.mp hc.2.1, sub_eq_zero.mp hc.2.2⟩
        · intro _
          rfl
      · rw [oDiv_some_some, oDiv_some_some, oDiv_some_some]
        rw [if_neg hr, if_neg hr, if_neg hr]
        rw [oMul_some_some, oMul_some_some, oMul_some_some,
          oAdd_some_some, oAdd_some_some]
        constructor
        · intro h
          exact Option.noConfusion h
        · rintro ⟨s', hs', _, hx, hy, hz⟩
          injection hs' with he
          subst he
          exact absurd ((rpow_sum_sq_eq_zero_iff _ _ _ (2.5 : ℝ) (by norm_num)).mpr
            ⟨by rw [hx]; ring, by rw [hy]; ring, by rw [hz]; ring⟩) hr

theorem gzContribF_eq_none_iff (so : Option Sphere) (p : ℝ × ℝ × ℝ) :
    gzContribF so p = none ↔
      ∃ s, so = some s ∧ (s.props.lookup "density").isSome = true ∧
        p.1 = s.x ∧ p.2.1 = s.y ∧ p.2.2 = s.z := by
  rcases so with _ | s
  · constructor
    · intro h
      rw [show gzContribF none p = some 0 from rfl] at h
      exact Option.noConfusion h
    · rintro ⟨s, hs, _⟩
      exact Option.noConfusion hs
  · rcases hm : s.props.lookup "density" with _ | density
    · constructor
      · intro h
        rw [show gzContribF (some s) p = some 0 from by simp [gzContribF, hm]] at h
        exact Option.noConfusion h
      · rintro ⟨s', hs', hden, _⟩
        injection hs' with he
        subst he
        rw [hm] at hden
        exact absurd hden (by simp)
    · simp only [gzContribF, hm]
      rw [oDiv_some_some]
      by_cases hr : ((p.1 - s.x) ^ 2 + (p.2.1 - s.y) ^ 2 + (p.2.2 - s.z) ^ 2) ^ (1.5 : ℝ) = 0
      · have hc := (rpow_sum_sq_eq_zero_iff _ _ _ (1.5 : ℝ) (by norm_num)).mp hr
        rw [if_pos hr]
        constructor
        · intro _
          exact ⟨s, rfl, by rw [hm]; rfl, sub_eq_zero.mp hc.1,
            sub_eq_zero.mp hc.2.1, sub_eq_zero.mp hc.2.2⟩
        · intro _
          rfl
      · rw [if_neg hr]
        constructor
        · intro h
          exact Option.noConfusion h
        · rintro ⟨s', hs', _, hx, hy, hz⟩
          injection hs' with he
          subst he
          exact absurd ((rpow_sum_sq_eq_zero_iff _ _ _ (1.5 : ℝ) (by norm_num)).mpr
            ⟨by rw [hx]; ring, by rw [hy]; ring, by rw [hz]; ring⟩) hr

/-- Claim C9: when an observation point coincides with a contributing
source's center, both evaluators still complete and return a full array
of the same length as the inputs, with no error raised; in the
non-finite-tracking model the value is non-finite (`none`) at an index
exactly when some contributing source's center coincides with that
observation point, and finite everywhere else. -/
theorem degenerate_nonfinite (xp yp zp : List ℝ) (spheres : List (Option Sphere))
    (inc decl : ℝ) (hxy : xp.length = yp.length) (hyz : yp.length = zp.length) :
    (∃ out, tfF xp yp zp spheres inc decl = Except.ok out ∧ out.length = xp.length ∧
      ∀ i, i < xp.length →
        (out.getD i (some 0) = none ↔ ∃ so ∈ spheres, ∃ s, so = some s ∧
          (s.props.lookup "magnetization").isSome = true ∧
          xp.getD i 0 = s.x ∧ yp.getD i 0 = s.y ∧ zp.getD i 0 = s.z)) ∧
    (∃ out, gzF xp yp zp spheres = Except.ok out ∧ out.length = xp.length ∧
      ∀ i, i < xp.length →
        (out.getD i (some 0) = none ↔ ∃ so ∈ spheres, ∃ s, so = some s ∧
          (s.props.lookup "density").isSome = true ∧
          xp.getD i 0 = s.x ∧ yp.getD i 0 = s.y ∧ zp.getD i 0 = s.z)) := by
  have hguard : ¬(xp.length ≠ yp.length ∧ yp.length ≠ zp.length) := by simp [hxy]
  have hlen := zip3_length xp yp zp hxy hyz
  constructor
  · refine ⟨(xp.zip (yp.zip zp)).map (fun p =>
      oMul (some (CM * T2NT)) (tfSumF spheres inc decl (dircos inc decl) p)), ?_, ?_, ?_⟩
    · unfold tfF
      rw [if_neg hguard]
    · simp [hlen]
    · intro i hi
      have h1 : i < xp.length := hi
      have h2 : i < yp.length := hxy ▸ hi
      have h3 : i < zp.length := by omega
      rw [List.getD_eq_getElem _ _ (by simp only [List.length_map, hlen]; exact hi)]
      rw [List.getElem_map, List.getElem_zip, List.getElem_zip]
      rw [List.getD_eq_getElem xp 0 h1, List.getD_eq_getElem yp 0 h2,
        List.getD_eq_getElem zp 0 h3]
      rw [oMul_some_eq_none_iff]
      unfold tfSumF
      rw [foldl_oAdd_eq_none_iff]
      constructor
      · rintro ⟨so, hso, hnone⟩
        obtain ⟨s, rfl, hmag, hx, hy, hz⟩ := (tfContribF_eq_none_iff _ _ _ _ _).mp hnone
        exact ⟨some s, hso, s, rfl, hmag, hx, hy, hz⟩
      · rintro ⟨so, hso, s, rfl, hmag, hx, hy, hz⟩
        exact ⟨some s, hso, (tfContribF_eq_none_iff _ _ _ _ _).mpr
          ⟨s, rfl, hmag, hx, hy, hz⟩⟩
  · refine ⟨(xp.zip (yp.zip zp)).map (fun p =>
      oMul (some (G * SI2MGAL)) (gzSumF spheres p)), ?_, ?_, ?_⟩
    · unfold gzF
      rw [if_neg hguard]
    · simp [hlen]
    · intro i hi
      have h1 : i < xp.length := hi
      have h2 : i < yp.length := hxy ▸ hi
      have h3 : i < zp.length := by omega
      rw [List.getD_eq_getElem _ _ (by simp only [List.length_map, hlen]; exact hi)]
      rw [List.getElem_map, List.getElem_zip, List.getElem_zip]
      rw [List.getD_eq_getElem xp 0 h1, List.getD_eq_getElem yp 0 h2,
        List.getD_eq_getElem zp 0 h3]
      rw [oMul_some_eq_none_iff]
      unfold gzSumF
      rw [foldl_oAdd_eq_none_iff]
      constructor
      · rintro ⟨so, hso, hnone⟩
        obtain ⟨s, rfl, hden, hx, hy, hz⟩ := (gzContribF_eq_none_iff _ _).mp hnone
        exact ⟨some s, hso, s, rfl, hden, hx, hy, hz⟩
      · rintro ⟨so, hso, s, rfl, hden, hx, hy, hz⟩
        exact ⟨some s, hso, (gzContribF_eq_none_iff _ _).mpr
          ⟨s, rfl, hden, hx, hy, hz⟩⟩

/-- Claim C9 witness: at the concrete same-shape input xp = yp = zp = [0]
with no sources, the hypotheses of `degenerate_nonfinite` hold and the
float-aware `tf` succeeds. -/
theorem degenerate_nonfinite_witness :
    (tfF [0] [0] [0] [] 0 0).isOk = true := by
  obtain ⟨⟨out, h1, _, _⟩, _⟩ := degenerate_nonfinite [0] [0] [0] [] 0 0 rfl rfl
  rw [h1]
  rfl

end Pelotas
